import Mathlib

/-!
Verification of the task queue/nanny and dispatch service of
`dqm_server/queue_handlers/dask_handler.py`.

The embedding is shallow and executable:

* A Python exception is a `PyExc` (class name and message).  The traceback
  text produced by `traceback.format_tb` is runtime introspection with no
  counterpart in a shallow embedding; it is modelled as the empty string,
  so the diagnostic filed by `DaskNanny.update` is
  `name ++ ":" ++ msg`, exactly the suffix the source appends after the
  traceback.
* A Dask future (the Handle) is a `Future`: its `done()` call and its
  `result()` call each either return a value or raise (`Except PyExc _`).
* The result record returned by a finished future is a `ResultData` with
  the fields the source reads: `success`, `molecule_hash`, `modelchem`,
  `error`.
* The MongoDB socket's `add_page` is an external collaborator, passed in
  as a function `ResultData → Except PyExc Bool` (it either raises or
  returns a value; the source ignores the returned value except to log it).
* `self.queue` is a Python dict (insertion ordered, unique keys), modelled
  as an association list `List (Nat × Future)`; `self.errors` likewise as
  `List (Nat × String)` with dict-assignment semantics (`setKey`).
* `str(uuid.uuid4())` is a fresh-name supply; it is modelled by a counter
  carried in the state, so a TrackingID is a `Nat`.
* `update` and the `post` loop return, besides the new state, the log of
  `add_page` calls (keyed by queue entry), the log of `future.result()`
  retrievals, and `Option PyExc`: `some e` means the Python exception `e`
  escaped the method.  When an exception escapes `update`, the deletion
  loop at the end never runs, so the queue is returned unchanged, while
  the in-place mutations of `self.errors` made before the raise persist.
-/

namespace DQM

/-- A Python exception: class name and message. -/
structure PyExc where
  name : String
  msg : String
deriving DecidableEq, Repr

/-- The diagnostic text `DaskNanny.update` files into `self.errors`:
`"".join(traceback.format_tb(...))` (modelled as `""`) followed by
`str(type(e).__name__) + ":" + str(e)`. -/
def excText (e : PyExc) : String :=
  "" ++ e.name ++ ":" ++ e.msg

/-- The result record of a finished future, with the fields the source
reads: `success`, `molecule_hash`, `modelchem`, `error`. -/
structure ResultData where
  success : Bool
  molecule_hash : String
  modelchem : String
  error : String
deriving DecidableEq, Repr

/-- The `ValueError` raised by `DaskNanny.update` when the result record
reports `success == False`:
`ValueError("Computation (%s, %s) did not complete successfully!:\n%s\n")`. -/
def failureExc (tmp : ResultData) : PyExc :=
  ⟨"ValueError",
    "Computation (" ++ tmp.molecule_hash ++ ", " ++ tmp.modelchem ++
      ") did not complete successfully!:\n" ++ tmp.error ++ "\n"⟩

instance instDecEqExcept {ε α : Type} [DecidableEq ε] [DecidableEq α] :
    DecidableEq (Except ε α) := fun x y =>
  match x, y with
  | Except.ok a, Except.ok b =>
      if h : a = b then isTrue (by rw [h])
      else isFalse (by intro hh; cases hh; exact h rfl)
  | Except.ok _, Except.error _ => isFalse (by intro hh; cases hh)
  | Except.error _, Except.ok _ => isFalse (by intro hh; cases hh)
  | Except.error a, Except.error b =>
      if h : a = b then isTrue (by rw [h])
      else isFalse (by intro hh; cases hh; exact h rfl)

/-- A Dask future (the opaque Handle): `done()` and `result()`, each of
which either returns or raises. -/
structure Future where
  done : Except PyExc Bool
  result : Except PyExc ResultData
deriving DecidableEq, Repr

/-- `done()` returned without raising. -/
def doneOk (f : Future) : Bool :=
  match f.done with
  | Except.ok _ => true
  | Except.error _ => false

/-- `done()` returned `True`. -/
def isFinished (f : Future) : Bool :=
  match f.done with
  | Except.ok true => true
  | _ => false

/-- Python dict assignment `m[k] = v` on an association list: overwrite in
place if the key is present (keys are unique in a dict), append
otherwise. -/
def setKey : List (Nat × String) → Nat → String → List (Nat × String)
  | [], k, v => [(k, v)]
  | p :: m, k, v => if p.1 = k then (k, v) :: m else p :: setKey m k v

/-- Python dict lookup `m.get(k)` on an association list. -/
def lookupKey : List (Nat × String) → Nat → Option String
  | [], _ => none
  | p :: m, k => if p.1 = k then some p.2 else lookupKey m k

/-- State of a `DaskNanny` instance: `self.queue`, `self.errors`, and the
fresh-name counter modelling the `uuid.uuid4()` supply. -/
structure NannyState where
  queue : List (Nat × Future)
  errors : List (Nat × String)
  counter : Nat
deriving DecidableEq, Repr

namespace DaskNanny

/-- `DaskNanny.add_future`: mint a fresh id, store the future under it in
`self.queue`, return the id (paired with the new state). -/
def add_future (st : NannyState) (fut : Future) : Nat × NannyState :=
  (st.counter,
    ⟨st.queue ++ [(st.counter, fut)], st.errors, st.counter + 1⟩)

/-- Output of one iteration of the `update` loop body for one queue
entry. -/
inductive StepOut where
  /-- `future.done()` raised: the exception escapes `update`. -/
  | raised (e : PyExc)
  /-- `future.done()` returned `False`: the entry is left untouched. -/
  | skip
  /-- The entry was processed: the new `self.errors`, the `add_page`
  calls made for it, and the `result()` retrievals made for it.  The key
  is appended to `del_keys` in every processed case. -/
  | processed (errs : List (Nat × String)) (page : List (Nat × ResultData))
      (res : List Nat)
deriving DecidableEq, Repr

/-- The body of the `for key, future in self.queue.items()` loop in
`DaskNanny.update`, for one entry.  Mirrors the source: if `done()`
raises, the exception propagates; if it returns `False`, nothing happens;
otherwise `result()` is retrieved inside a `try`, a `ValueError` is raised
if the record reports failure, else `add_page` is called; any exception in
the `try` is caught and filed under `self.errors[key]`; in every processed
case the key is appended to `del_keys`. -/
def stepEntry (store : ResultData → Except PyExc Bool)
    (errs : List (Nat × String)) (key : Nat) (fut : Future) : StepOut :=
  match fut.done with
  | Except.error e => StepOut.raised e
  | Except.ok false => StepOut.skip
  | Except.ok true =>
    match fut.result with
    | Except.error e =>
        StepOut.processed (setKey errs key (excText e)) [] [key]
    | Except.ok tmp =>
        if !tmp.success then
          StepOut.processed (setKey errs key (excText (failureExc tmp))) []
            [key]
        else
          match store tmp with
          | Except.error e =>
              StepOut.processed (setKey errs key (excText e)) [(key, tmp)]
                [key]
          | Except.ok _ =>
              StepOut.processed errs [(key, tmp)] [key]

/-- Accumulated output of the `update` loop: the errors map, `del_keys`,
the `add_page` call log, the `result()` retrieval log, and the escaping
exception if any. -/
structure LoopOut where
  errs : List (Nat × String)
  delKeys : List Nat
  pageLog : List (Nat × ResultData)
  resLog : List Nat
  exc : Option PyExc
deriving DecidableEq, Repr

/-- The `for key, future in self.queue.items()` loop of
`DaskNanny.update`, threading the accumulators. -/
def updateLoop (store : ResultData → Except PyExc Bool) :
    List (Nat × Future) → List (Nat × String) → List Nat →
    List (Nat × ResultData) → List Nat → LoopOut
  | [], errs, dels, plog, rlog => ⟨errs, dels, plog, rlog, none⟩
  | (k, f) :: rest, errs, dels, plog, rlog =>
    match stepEntry store errs k f with
    | StepOut.raised e => ⟨errs, dels, plog, rlog, some e⟩
    | StepOut.skip => updateLoop store rest errs dels plog rlog
    | StepOut.processed errs2 p r =>
        updateLoop store rest errs2 (dels ++ [k]) (plog ++ p) (rlog ++ r)

/-- Result of a full `DaskNanny.update` call. -/
structure UpdateOut where
  state : NannyState
  pageLog : List (Nat × ResultData)
  resLog : List Nat
  exc : Option PyExc
deriving DecidableEq, Repr

/-- The tail of `DaskNanny.update` after the loop: if no exception
escaped, run `for key in del_keys: del self.queue[key]`; if an exception
escaped, the deletion loop never runs (the queue is unchanged) while the
in-place `self.errors` mutations already made persist. -/
def finishUpdate (st : NannyState) (out : LoopOut) : UpdateOut :=
  match out.exc with
  | some e =>
      ⟨⟨st.queue, out.errs, st.counter⟩, out.pageLog, out.resLog, some e⟩
  | none =>
      ⟨⟨st.queue.filter (fun p => !out.delKeys.contains p.1), out.errs,
          st.counter⟩,
        out.pageLog, out.resLog, none⟩

/-- `DaskNanny.update`: run the loop over `self.queue`, then delete every
key of `del_keys` from `self.queue`. -/
def update (store : ResultData → Except PyExc Bool) (st : NannyState) :
    UpdateOut :=
  finishUpdate st (updateLoop store st.queue st.errors [] [] [])

/-- `DaskScheduler.get` / `FireworksScheduler.get` body (the poll):
`list(queue_nanny.queue)` and `queue_nanny.errors`. -/
def getPoll (st : NannyState) : List Nat × List (Nat × String) :=
  (st.queue.map (fun p => p.1), st.errors)

end DaskNanny

/-- One item of the task list returned by the unpacking collaborator
(`_unpack_tasks`): either a backend-ready task (opaque payload) or a dict
carrying an `internal_error` message.  The source tests
`"internal_error" in list(task)`. -/
inductive TaskItem where
  | spec (payload : String)
  | errorMarker (msg : String)
deriving DecidableEq, Repr

/-- Is the item a backend-ready task (no `internal_error` key)? -/
def TaskItem.isSpec : TaskItem → Bool
  | TaskItem.spec _ => true
  | TaskItem.errorMarker _ => false

/-- The `internal_error` message of an ErrorMarker item, if any. -/
def TaskItem.markerMsg : TaskItem → Option String
  | TaskItem.spec _ => none
  | TaskItem.errorMarker m => some m

namespace DaskScheduler

/-- Result of the submission loop of `DaskScheduler.post`: the response's
`error` list, the response's `Nanny ID` list, the nanny state, and the
escaping exception if any. -/
structure PostOut where
  errList : List String
  nannyIds : List Nat
  state : NannyState
  exc : Option PyExc
deriving DecidableEq, Repr

/-- The `for task in tasks` loop of `DaskScheduler.post`: an item with
`internal_error` appends its message to `ret["error"]` and is skipped;
otherwise `dask.submit(...)` is called (not wrapped in any handler: if it
raises, the exception escapes `post` and the loop stops) and the returned
future is registered via `add_future`, whose id is appended to
`ret["Nanny ID"]`. -/
def postLoop (submit : String → Except PyExc Future) :
    List TaskItem → List String → List Nat → NannyState → PostOut
  | [], errs, ids, st => ⟨errs, ids, st, none⟩
  | TaskItem.errorMarker m :: rest, errs, ids, st =>
      postLoop submit rest (errs ++ [m]) ids st
  | TaskItem.spec p :: rest, errs, ids, st =>
    match submit p with
    | Except.error e => ⟨errs, ids, st, some e⟩
    | Except.ok fut =>
        let r := DaskNanny.add_future st fut
        postLoop submit rest errs (ids ++ [r.1]) r.2

/-- The submission part of `DaskScheduler.post`, starting after
authentication and `_unpack_tasks` (both external collaborators), with the
unpacked item list as input. -/
def post (submit : String → Except PyExc Future) (tasks : List TaskItem)
    (st : NannyState) : PostOut :=
  postLoop submit tasks [] [] st

end DaskScheduler

/-- Repeated `add_future` calls: track each future of the list in order,
returning the minted ids and the final state. -/
def trackAll (st : NannyState) : List Future → List Nat × NannyState
  | [] => ([], st)
  | f :: fs =>
    let r := DaskNanny.add_future st f
    let rest := trackAll r.2 fs
    (r.1 :: rest.1, rest.2)


/-! ### Concrete sample collaborators and states (used by the concrete
instantiations below) -/

/-- A store whose `add_page` accepts every record. -/
def storeOk : ResultData → Except PyExc Bool := fun _ => Except.ok true

/-- A store whose `add_page` rejects every record by returning `False`,
without raising. -/
def storeReject : ResultData → Except PyExc Bool := fun _ => Except.ok false

/-- An unreachable store: every `add_page` call raises. -/
def storeDown : ResultData → Except PyExc Bool :=
  fun _ => Except.error ⟨"ConnectionError", "mongo unreachable"⟩

/-- A successful result record. -/
def rdGood : ResultData := ⟨true, "abc123", "B3LYP/6-31G", ""⟩

/-- A failed result record whose diagnostic is "solver diverged". -/
def rdDiverged : ResultData :=
  ⟨false, "def456", "MP2/cc-pVDZ", "solver diverged"⟩

/-- A finished future with a successful outcome. -/
def futSuccess : Future := ⟨Except.ok true, Except.ok rdGood⟩

/-- A finished future with a failed outcome. -/
def futFailed : Future := ⟨Except.ok true, Except.ok rdDiverged⟩

/-- A still-running future: `done()` returns `False`. -/
def futRunning : Future :=
  ⟨Except.ok false, Except.error ⟨"InvalidStateError", "result not set"⟩⟩

/-- A future whose `done()` call itself raises. -/
def futDoneRaises : Future :=
  ⟨Except.error ⟨"CommClosedError", "scheduler gone"⟩, Except.ok rdGood⟩

/-- A finished future whose `result()` call raises. -/
def futResultRaises : Future :=
  ⟨Except.ok true, Except.error ⟨"TypeError", "malformed record"⟩⟩

/-- A submit function that accepts every task. -/
def submitOk : String → Except PyExc Future := fun _ => Except.ok futRunning

/-- A submit function that fails on the task payload "b". -/
def submitFailsB : String → Except PyExc Future := fun p =>
  if p = "b" then Except.error ⟨"CommClosedError", "scheduler gone"⟩
  else Except.ok futRunning

/-! ### Association-list lemmas -/

theorem lookupKey_setKey_self (m : List (Nat × String)) (k : Nat)
    (v : String) : lookupKey (setKey m k v) k = some v := by
  induction m with
  | nil => simp [setKey, lookupKey]
  | cons p m ih =>
    by_cases h : p.1 = k
    · simp [setKey, lookupKey, h]
    · simp [setKey, lookupKey, h, ih]

theorem lookupKey_setKey_ne (m : List (Nat × String)) (k j : Nat)
    (v : String) (hjk : j ≠ k) :
    lookupKey (setKey m k v) j = lookupKey m j := by
  induction m with
  | nil => simp [setKey, lookupKey, hjk, Ne.symm hjk]
  | cons p m ih =>
    by_cases h : p.1 = k
    · have hpj : ¬ p.1 = j := by
        intro hpj
        exact hjk (hpj ▸ h)
      simp [setKey, lookupKey, h, hpj, Ne.symm hjk]
    · by_cases hj : p.1 = j
      · simp [setKey, lookupKey, h, hj, hjk]
      · simp [setKey, lookupKey, h, hj, ih]

theorem setKey_count_self (m : List (Nat × String)) (k : Nat) (v : String)
    (h : lookupKey m k = none) :
    ((setKey m k v).filter (fun p => p.1 = k)).length = 1 := by
  induction m with
  | nil => simp [setKey]
  | cons p m ih =>
    by_cases hp : p.1 = k
    · simp [lookupKey, hp] at h
    · simp only [lookupKey, hp, if_false] at h
      simp [setKey, hp, ih h]

theorem lookupKey_eq_none_iff (m : List (Nat × String)) (k : Nat) :
    lookupKey m k = none ↔ ∀ x ∈ m, ¬ x.1 = k := by
  induction m with
  | nil => simp [lookupKey]
  | cons p m ih =>
    by_cases h : p.1 = k
    · simp [lookupKey, h]
    · simp [lookupKey, h, ih]

theorem setKey_filter_ne (m : List (Nat × String)) (k j : Nat) (v : String)
    (hjk : j ≠ k) :
    (setKey m k v).filter (fun x => x.1 = j) =
      m.filter (fun x => x.1 = j) := by
  induction m with
  | nil => simp [setKey, Ne.symm hjk]
  | cons p m ih =>
    by_cases h : p.1 = k
    · have hpj : ¬ p.1 = j := by
        intro hpj
        exact hjk (hpj ▸ h)
      simp [setKey, h, hpj, Ne.symm hjk]
    · by_cases hj : p.1 = j
      · simp [setKey, h, hj, hjk, ih]
      · simp [setKey, h, hj, ih]

theorem setKey_filter_self (m : List (Nat × String)) (k : Nat) (v : String)
    (h : lookupKey m k = none) :
    (setKey m k v).filter (fun x => x.1 = k) = [(k, v)] := by
  induction m with
  | nil => simp [setKey]
  | cons p m ih =>
    by_cases hp : p.1 = k
    · simp [lookupKey, hp] at h
    · simp only [lookupKey, hp, if_false] at h
      simp [setKey, hp, ih h]

namespace DaskNanny

/-! ### stepEntry reduction lemmas -/

theorem stepEntry_done_error (store : ResultData → Except PyExc Bool)
    (errs : List (Nat × String)) (k : Nat) (f : Future) (e : PyExc)
    (hd : f.done = Except.error e) :
    stepEntry store errs k f = StepOut.raised e := by
  simp [stepEntry, hd]

theorem stepEntry_done_false (store : ResultData → Except PyExc Bool)
    (errs : List (Nat × String)) (k : Nat) (f : Future)
    (hd : f.done = Except.ok false) :
    stepEntry store errs k f = StepOut.skip := by
  simp [stepEntry, hd]

theorem stepEntry_result_error (store : ResultData → Except PyExc Bool)
    (errs : List (Nat × String)) (k : Nat) (f : Future) (e : PyExc)
    (hd : f.done = Except.ok true) (hr : f.result = Except.error e) :
    stepEntry store errs k f =
      StepOut.processed (setKey errs k (excText e)) [] [k] := by
  simp [stepEntry, hd, hr]

theorem stepEntry_result_failure (store : ResultData → Except PyExc Bool)
    (errs : List (Nat × String)) (k : Nat) (f : Future) (tmp : ResultData)
    (hd : f.done = Except.ok true) (hr : f.result = Except.ok tmp)
    (hs : tmp.success = false) :
    stepEntry store errs k f =
      StepOut.processed (setKey errs k (excText (failureExc tmp))) []
        [k] := by
  simp [stepEntry, hd, hr, hs]

theorem stepEntry_store_error (store : ResultData → Except PyExc Bool)
    (errs : List (Nat × String)) (k : Nat) (f : Future) (tmp : ResultData)
    (e : PyExc) (hd : f.done = Except.ok true)
    (hr : f.result = Except.ok tmp) (hs : tmp.success = true)
    (hst : store tmp = Except.error e) :
    stepEntry store errs k f =
      StepOut.processed (setKey errs k (excText e)) [(k, tmp)] [k] := by
  simp [stepEntry, hd, hr, hs, hst]

theorem stepEntry_store_ok (store : ResultData → Except PyExc Bool)
    (errs : List (Nat × String)) (k : Nat) (f : Future) (tmp : ResultData)
    (b : Bool) (hd : f.done = Except.ok true)
    (hr : f.result = Except.ok tmp) (hs : tmp.success = true)
    (hst : store tmp = Except.ok b) :
    stepEntry store errs k f = StepOut.processed errs [(k, tmp)] [k] := by
  simp [stepEntry, hd, hr, hs, hst]

/-- Exhaustive case analysis of the loop body: it raises exactly when
`done()` raises, skips exactly when `done()` returns `False`, and in
every processed case it touches only its own key, logs `add_page`
records only under its own key, and retrieves `result()` exactly once. -/
theorem stepEntry_cases (store : ResultData → Except PyExc Bool)
    (errs : List (Nat × String)) (k : Nat) (f : Future) :
    (∃ e, f.done = Except.error e ∧
      stepEntry store errs k f = StepOut.raised e) ∨
    (f.done = Except.ok false ∧ stepEntry store errs k f = StepOut.skip) ∨
    (f.done = Except.ok true ∧ ∃ e2 p r,
      stepEntry store errs k f = StepOut.processed e2 p r ∧
      (∀ j, j ≠ k → lookupKey e2 j = lookupKey errs j) ∧
      (∀ j, j ≠ k → e2.filter (fun x => x.1 = j) =
        errs.filter (fun x => x.1 = j)) ∧
      (∀ x ∈ p, x.1 = k) ∧ r = [k]) := by
  rcases hd : f.done with e | b
  · exact Or.inl ⟨e, rfl, stepEntry_done_error store errs k f e hd⟩
  · rcases b with _ | _
    · exact Or.inr (Or.inl ⟨rfl, stepEntry_done_false store errs k f hd⟩)
    · refine Or.inr (Or.inr ⟨rfl, ?_⟩)
      rcases hr : f.result with e | tmp
      · exact ⟨setKey errs k (excText e), [], [k],
          stepEntry_result_error store errs k f e hd hr,
          fun j hj => lookupKey_setKey_ne errs k j _ hj,
          fun j hj => setKey_filter_ne errs k j _ hj, by simp, rfl⟩
      · rcases hs : tmp.success with _ | _
        · exact ⟨setKey errs k (excText (failureExc tmp)), [], [k],
            stepEntry_result_failure store errs k f tmp hd hr hs,
            fun j hj => lookupKey_setKey_ne errs k j _ hj,
            fun j hj => setKey_filter_ne errs k j _ hj, by simp, rfl⟩
        · rcases hst : store tmp with e | b2
          · exact ⟨setKey errs k (excText e), [(k, tmp)], [k],
              stepEntry_store_error store errs k f tmp e hd hr hs hst,
              fun j hj => lookupKey_setKey_ne errs k j _ hj,
              fun j hj => setKey_filter_ne errs k j _ hj, by simp, rfl⟩
          · exact ⟨errs, [(k, tmp)], [k],
              stepEntry_store_ok store errs k f tmp b2 hd hr hs hst,
              fun j hj => rfl, fun j hj => rfl, by simp, rfl⟩

/-! ### updateLoop unfolding lemmas -/

theorem updateLoop_nil (store : ResultData → Except PyExc Bool)
    (errs : List (Nat × String)) (dels : List Nat)
    (plog : List (Nat × ResultData)) (rlog : List Nat) :
    updateLoop store [] errs dels plog rlog = ⟨errs, dels, plog, rlog, none⟩ :=
  rfl

theorem updateLoop_cons (store : ResultData → Except PyExc Bool) (k : Nat)
    (f : Future) (rest : List (Nat × Future)) (errs : List (Nat × String))
    (dels : List Nat) (plog : List (Nat × ResultData)) (rlog : List Nat) :
    updateLoop store ((k, f) :: rest) errs dels plog rlog =
      match stepEntry store errs k f with
      | StepOut.raised e => ⟨errs, dels, plog, rlog, some e⟩
      | StepOut.skip => updateLoop store rest errs dels plog rlog
      | StepOut.processed errs2 p r =>
          updateLoop store rest errs2 (dels ++ [k]) (plog ++ p)
            (rlog ++ r) :=
  rfl

/-! ### updateLoop structural lemmas -/

/-- `del_keys` only grows along the loop. -/
theorem updateLoop_delKeys_mono (store : ResultData → Except PyExc Bool) :
    ∀ (q : List (Nat × Future)) (errs : List (Nat × String))
      (dels : List Nat) (plog : List (Nat × ResultData)) (rlog : List Nat)
      (x : Nat), x ∈ dels →
      x ∈ (updateLoop store q errs dels plog rlog).delKeys := by
  intro q
  induction q with
  | nil => intro errs dels plog rlog x hx; exact hx
  | cons a rest ih =>
    intro errs dels plog rlog x hx
    obtain ⟨k, f⟩ := a
    rw [updateLoop_cons]
    cases hstep : stepEntry store errs k f with
    | raised e => exact hx
    | skip => exact ih errs dels plog rlog x hx
    | processed e2 p r =>
        exact ih e2 (dels ++ [k]) (plog ++ p) (rlog ++ r) x
          (List.mem_append_left _ hx)

/-- If every tracked future's `done()` call returns (does not raise), no
exception escapes the loop. -/
theorem updateLoop_exc_none (store : ResultData → Except PyExc Bool) :
    ∀ (q : List (Nat × Future)), (∀ p ∈ q, doneOk p.2 = true) →
    ∀ errs dels plog rlog,
      (updateLoop store q errs dels plog rlog).exc = none := by
  intro q
  induction q with
  | nil => intro _ errs dels plog rlog; rfl
  | cons a rest ih =>
    intro hq errs dels plog rlog
    obtain ⟨k, f⟩ := a
    have hrest : ∀ p ∈ rest, doneOk p.2 = true :=
      fun p hp => hq p (List.mem_cons_of_mem _ hp)
    rw [updateLoop_cons]
    rcases stepEntry_cases store errs k f with ⟨e, hd, hstep⟩ | ⟨hd, hstep⟩ |
      ⟨hd, e2, p, r, hstep, hlook, hfilt, hp, hr⟩
    · have hf : doneOk f = true := hq (k, f) (List.mem_cons_self _ _)
      simp [doneOk, hd] at hf
    · rw [hstep]; exact ih hrest errs dels plog rlog
    · rw [hstep]; exact ih hrest e2 (dels ++ [k]) (plog ++ p) (rlog ++ r)

/-- If the loop over a prefix does not raise, the loop over the whole
list continues from the prefix's accumulators. -/
theorem updateLoop_append (store : ResultData → Except PyExc Bool) :
    ∀ (q1 q2 : List (Nat × Future)) (errs : List (Nat × String))
      (dels : List Nat) (plog : List (Nat × ResultData)) (rlog : List Nat),
      (updateLoop store q1 errs dels plog rlog).exc = none →
      updateLoop store (q1 ++ q2) errs dels plog rlog =
        updateLoop store q2 (updateLoop store q1 errs dels plog rlog).errs
          (updateLoop store q1 errs dels plog rlog).delKeys
          (updateLoop store q1 errs dels plog rlog).pageLog
          (updateLoop store q1 errs dels plog rlog).resLog := by
  intro q1
  induction q1 with
  | nil => intro q2 errs dels plog rlog _; rfl
  | cons a rest ih =>
    intro q2 errs dels plog rlog hexc
    obtain ⟨k, f⟩ := a
    rw [updateLoop_cons] at hexc
    rw [List.cons_append, updateLoop_cons store k f (rest ++ q2),
      updateLoop_cons store k f rest]
    cases hstep : stepEntry store errs k f with
    | raised e =>
        rw [hstep] at hexc
        exact Option.noConfusion hexc
    | skip =>
        rw [hstep] at hexc
        exact ih q2 errs dels plog rlog hexc
    | processed e2 p r =>
        rw [hstep] at hexc
        exact ih q2 e2 (dels ++ [k]) (plog ++ p) (rlog ++ r) hexc

/-- A key that is not tracked in `q` is untouched by the loop over `q`:
its error entries, its `add_page` log, `del_keys` membership and
`result()`-retrieval membership are all preserved. -/
theorem updateLoop_frame (store : ResultData → Except PyExc Bool) :
    ∀ (q : List (Nat × Future)) (j : Nat), j ∉ q.map Prod.fst →
    ∀ errs dels plog rlog,
      lookupKey (updateLoop store q errs dels plog rlog).errs j =
        lookupKey errs j ∧
      (updateLoop store q errs dels plog rlog).errs.filter
          (fun x => x.1 = j) = errs.filter (fun x => x.1 = j) ∧
      (updateLoop store q errs dels plog rlog).pageLog.filter
          (fun x => x.1 = j) = plog.filter (fun x => x.1 = j) ∧
      (j ∈ (updateLoop store q errs dels plog rlog).delKeys ↔ j ∈ dels) ∧
      (j ∈ (updateLoop store q errs dels plog rlog).resLog ↔ j ∈ rlog) := by
  intro q
  induction q with
  | nil =>
    intro j hj errs dels plog rlog
    exact ⟨rfl, rfl, rfl, Iff.rfl, Iff.rfl⟩
  | cons a rest ih =>
    intro j hj errs dels plog rlog
    obtain ⟨k, f⟩ := a
    have hjk : j ≠ k := by
      intro h
      exact hj (by simp [h])
    have hjrest : j ∉ rest.map Prod.fst := by
      intro h
      exact hj (by simp [h])
    rw [updateLoop_cons]
    rcases stepEntry_cases store errs k f with ⟨e, hd, hstep⟩ | ⟨hd, hstep⟩ |
      ⟨hd, e2, p, r, hstep, hlook, hfilt, hp, hr⟩
    · rw [hstep]
      exact ⟨rfl, rfl, rfl, Iff.rfl, Iff.rfl⟩
    · rw [hstep]
      exact ih j hjrest errs dels plog rlog
    · rw [hstep]
      obtain ⟨ih1, ih2, ih3, ih4, ih5⟩ :=
        ih j hjrest e2 (dels ++ [k]) (plog ++ p) (rlog ++ r)
      refine ⟨?_, ?_, ?_, ?_, ?_⟩
      · rw [ih1]; exact hlook j hjk
      · rw [ih2]; exact hfilt j hjk
      · rw [ih3, List.filter_append]
        have hnil : p.filter (fun x => decide (x.1 = j)) = [] := by
          rw [List.filter_eq_nil_iff]
          intro x hx
          simp only [decide_eq_true_eq]
          intro hxj
          exact hjk ((hp x hx) ▸ hxj ▸ rfl)
        rw [hnil, List.append_nil]
      · rw [ih4]; simp [hjk]
      · rw [ih5, hr]; simp [hjk]

/-- The `result()`-retrieval log is a sublist of the accumulator followed
by the tracked keys in order: no key is retrieved more often than it is
tracked. -/
theorem updateLoop_resLog_sublist (store : ResultData → Except PyExc Bool) :
    ∀ (q : List (Nat × Future)) (errs : List (Nat × String))
      (dels : List Nat) (plog : List (Nat × ResultData)) (rlog : List Nat),
      List.Sublist (updateLoop store q errs dels plog rlog).resLog
        (rlog ++ q.map Prod.fst) := by
  intro q
  induction q with
  | nil =>
    intro errs dels plog rlog
    show List.Sublist rlog (rlog ++ [])
    simp
  | cons a rest ih =>
    intro errs dels plog rlog
    obtain ⟨k, f⟩ := a
    rw [updateLoop_cons]
    rcases stepEntry_cases store errs k f with ⟨e, hd, hstep⟩ | ⟨hd, hstep⟩ |
      ⟨hd, e2, p, r, hstep, hlook, hfilt, hp, hr⟩
    · rw [hstep]
      exact List.sublist_append_left rlog _
    · rw [hstep]
      refine (ih errs dels plog rlog).trans ?_
      exact List.Sublist.append_left (List.sublist_cons_self k _) rlog
    · rw [hstep, hr]
      have := ih e2 (dels ++ [k]) (plog ++ p) (rlog ++ [k])
      rwa [List.append_assoc, List.singleton_append] at this

/-- A queue whose futures all report `done() == False` is left entirely
untouched by the loop. -/
theorem updateLoop_all_unfinished (store : ResultData → Except PyExc Bool) :
    ∀ (q : List (Nat × Future)), (∀ p ∈ q, p.2.done = Except.ok false) →
    ∀ errs dels plog rlog,
      updateLoop store q errs dels plog rlog =
        ⟨errs, dels, plog, rlog, none⟩ := by
  intro q
  induction q with
  | nil => intro _ errs dels plog rlog; rfl
  | cons a rest ih =>
    intro hq errs dels plog rlog
    obtain ⟨k, f⟩ := a
    have hf : f.done = Except.ok false := hq (k, f) (List.mem_cons_self _ _)
    rw [updateLoop_cons, stepEntry_done_false store errs k f hf]
    exact ih (fun p hp => hq p (List.mem_cons_of_mem _ hp)) errs dels plog
      rlog

/-- Every tracked entry whose future reports finished has its key
appended to `del_keys`, provided no `done()` call raises. -/
theorem updateLoop_finished_mem (store : ResultData → Except PyExc Bool) :
    ∀ (q : List (Nat × Future)), (∀ p ∈ q, doneOk p.2 = true) →
    ∀ (k : Nat) (f : Future), (k, f) ∈ q → f.done = Except.ok true →
    ∀ errs dels plog rlog,
      k ∈ (updateLoop store q errs dels plog rlog).delKeys := by
  intro q
  induction q with
  | nil => intro _ k f hk; cases hk
  | cons a rest ih =>
    intro hq k f hk hfin errs dels plog rlog
    obtain ⟨k0, f0⟩ := a
    have hrest : ∀ p ∈ rest, doneOk p.2 = true :=
      fun p hp => hq p (List.mem_cons_of_mem _ hp)
    rw [updateLoop_cons]
    rcases stepEntry_cases store errs k0 f0 with ⟨e, hd, hstep⟩ |
      ⟨hd, hstep⟩ | ⟨hd, e2, p, r, hstep, hlook, hfilt, hp, hr⟩
    · have hf : doneOk f0 = true := hq (k0, f0) (List.mem_cons_self _ _)
      simp [doneOk, hd] at hf
    · rw [hstep]
      rcases List.mem_cons.1 hk with heq | hmem
      · have hf0 : f = f0 := congrArg Prod.snd heq
        rw [hf0, hd] at hfin
        simp at hfin
      · exact ih hrest k f hmem hfin errs dels plog rlog
    · rw [hstep]
      rcases List.mem_cons.1 hk with heq | hmem
      · have hk0 : k = k0 := congrArg Prod.fst heq
        subst hk0
        exact updateLoop_delKeys_mono store rest e2 (dels ++ [k]) (plog ++ p)
          (rlog ++ r) k (List.mem_append_right _ (List.mem_singleton.2 rfl))
      · exact ih hrest k f hmem hfin e2 (dels ++ [k0]) (plog ++ p)
          (rlog ++ r)

theorem update_def (store : ResultData → Except PyExc Bool)
    (st : NannyState) :
    update store st =
      finishUpdate st (updateLoop store st.queue st.errors [] [] []) :=
  rfl

theorem finishUpdate_none (st : NannyState) (out : LoopOut)
    (h : out.exc = none) :
    finishUpdate st out =
      ⟨⟨st.queue.filter (fun p => !out.delKeys.contains p.1), out.errs,
          st.counter⟩,
        out.pageLog, out.resLog, none⟩ := by
  obtain ⟨oerrs, odels, oplog, orlog, oexc⟩ := out
  cases oexc with
  | none => rfl
  | some e => exact Option.noConfusion h

theorem finishUpdate_some (st : NannyState) (out : LoopOut) (e : PyExc)
    (h : out.exc = some e) :
    finishUpdate st out =
      ⟨⟨st.queue, out.errs, st.counter⟩, out.pageLog, out.resLog,
        some e⟩ := by
  obtain ⟨oerrs, odels, oplog, orlog, oexc⟩ := out
  cases oexc with
  | none => exact Option.noConfusion h
  | some e2 =>
      obtain rfl : e2 = e := Option.some.inj h
      rfl

/-- In a dict, a key occurring in the middle of the entry list occurs
neither before nor after its own entry. -/
theorem nodup_split_key {q1 q2 : List (Nat × Future)} {k : Nat}
    {f : Future} (hnd : ((q1 ++ (k, f) :: q2).map Prod.fst).Nodup) :
    k ∉ q1.map Prod.fst ∧ k ∉ q2.map Prod.fst := by
  rw [List.map_append, List.map_cons, List.nodup_append] at hnd
  obtain ⟨h1, h2, hdisj⟩ := hnd
  exact ⟨fun hk1 => hdisj hk1 (List.mem_cons_self _ _),
    (List.nodup_cons.1 h2).1⟩

/-- Master per-entry lemma: if a tracked entry's loop body is processed
(with errors transform `E`, `add_page` calls `pg`, one `result()`
retrieval), no `done()` call raises, and keys are unique, then `update`
returns no exception, removes the entry's key from the queue, logs exactly
`pg` for that key, and transforms the errors map at that key by `E`
applied to a map agreeing with the initial one at that key. -/
theorem update_processed_entry (store : ResultData → Except PyExc Bool)
    (st : NannyState) (E : List (Nat × String) → List (Nat × String))
    (pg : List (Nat × ResultData)) (k : Nat) (f : Future)
    (hq : ∀ p ∈ st.queue, doneOk p.2 = true)
    (hnd : (st.queue.map Prod.fst).Nodup) (hk : (k, f) ∈ st.queue)
    (hstep : ∀ errs, stepEntry store errs k f =
      StepOut.processed (E errs) pg [k])
    (hpg : ∀ x ∈ pg, x.1 = k) :
    (update store st).exc = none ∧
    (∀ g : Future, (k, g) ∉ (update store st).state.queue) ∧
    (update store st).pageLog.filter (fun x => x.1 = k) = pg ∧
    (∃ m : List (Nat × String),
      lookupKey m k = lookupKey st.errors k ∧
      m.filter (fun x => x.1 = k) = st.errors.filter (fun x => x.1 = k) ∧
      lookupKey (update store st).state.errors k = lookupKey (E m) k ∧
      (update store st).state.errors.filter (fun x => x.1 = k) =
        (E m).filter (fun x => x.1 = k)) := by
  obtain ⟨q1, q2, hsplit⟩ := List.append_of_mem hk
  have hq1 : ∀ p ∈ q1, doneOk p.2 = true := fun p hp =>
    hq p (by rw [hsplit]; exact List.mem_append_left _ hp)
  obtain ⟨hk1, hk2⟩ := nodup_split_key (hsplit ▸ hnd)
  have hexcAll : (updateLoop store st.queue st.errors [] [] []).exc =
      none := updateLoop_exc_none store st.queue hq st.errors [] [] []
  have hupd : update store st =
      ⟨⟨st.queue.filter (fun p =>
          !(updateLoop store st.queue st.errors [] [] []).delKeys.contains
            p.1),
        (updateLoop store st.queue st.errors [] [] []).errs, st.counter⟩,
        (updateLoop store st.queue st.errors [] [] []).pageLog,
        (updateLoop store st.queue st.errors [] [] []).resLog, none⟩ :=
    finishUpdate_none st _ hexcAll
  have hL : updateLoop store st.queue st.errors [] [] [] =
      updateLoop store q2
        (E (updateLoop store q1 st.errors [] [] []).errs)
        ((updateLoop store q1 st.errors [] [] []).delKeys ++ [k])
        ((updateLoop store q1 st.errors [] [] []).pageLog ++ pg)
        ((updateLoop store q1 st.errors [] [] []).resLog ++ [k]) := by
    rw [hsplit]
    rw [updateLoop_append store q1 ((k, f) :: q2) st.errors [] [] []
      (updateLoop_exc_none store q1 hq1 st.errors [] [] [])]
    rw [updateLoop_cons, hstep]
  obtain ⟨hf1look, hf1filt, hf1page, hf1del, hf1res⟩ :=
    updateLoop_frame store q1 k hk1 st.errors [] [] []
  obtain ⟨hf2look, hf2filt, hf2page, hf2del, hf2res⟩ :=
    updateLoop_frame store q2 k hk2
      (E (updateLoop store q1 st.errors [] [] []).errs)
      ((updateLoop store q1 st.errors [] [] []).delKeys ++ [k])
      ((updateLoop store q1 st.errors [] [] []).pageLog ++ pg)
      ((updateLoop store q1 st.errors [] [] []).resLog ++ [k])
  have hkdel : k ∈ (updateLoop store st.queue st.errors [] [] []).delKeys := by
    rw [hL]
    exact hf2del.2 (List.mem_append_right _ (List.mem_singleton.2 rfl))
  refine ⟨by rw [hupd], ?_, ?_, ?_⟩
  · intro g hg
    rw [hupd] at hg
    obtain ⟨hmem, hpred⟩ := List.mem_filter.1 hg
    rw [Bool.not_eq_true'] at hpred
    exact absurd hkdel (by simpa using hpred)
  · rw [hupd]
    show (updateLoop store st.queue st.errors [] [] []).pageLog.filter
      (fun x => x.1 = k) = pg
    rw [hL]
    rw [hf2page, List.filter_append, hf1page]
    have hpgself : pg.filter (fun x => decide (x.1 = k)) = pg := by
      rw [List.filter_eq_self]
      intro x hx
      simp [hpg x hx]
    simp [hpgself]
  · refine ⟨(updateLoop store q1 st.errors [] [] []).errs, hf1look,
      hf1filt, ?_, ?_⟩
    · rw [hupd]
      show lookupKey (updateLoop store st.queue st.errors [] [] []).errs k =
        lookupKey (E (updateLoop store q1 st.errors [] [] []).errs) k
      rw [hL]
      exact hf2look
    · rw [hupd]
      show (updateLoop store st.queue st.errors [] [] []).errs.filter
          (fun x => x.1 = k) =
        (E (updateLoop store q1 st.errors [] [] []).errs).filter
          (fun x => x.1 = k)
      rw [hL]
      exact hf2filt

/-- An entry whose future reports `done() == False` has its error entry
and its `del_keys` membership untouched by the loop, even if a later (or
earlier) entry raises. -/
theorem updateLoop_unfinished_frame (store : ResultData → Except PyExc Bool) :
    ∀ (q : List (Nat × Future)) (k : Nat) (f : Future),
    (q.map Prod.fst).Nodup → (k, f) ∈ q → f.done = Except.ok false →
    ∀ errs dels plog rlog,
      lookupKey (updateLoop store q errs dels plog rlog).errs k =
        lookupKey errs k ∧
      (k ∈ (updateLoop store q errs dels plog rlog).delKeys ↔ k ∈ dels) := by
  intro q
  induction q with
  | nil => intro k f _ hk; cases hk
  | cons a rest ih =>
    intro k f hnd hk hd errs dels plog rlog
    obtain ⟨k0, f0⟩ := a
    have hnd2 : (k0 :: rest.map Prod.fst).Nodup := by simpa using hnd
    have hnd' : (rest.map Prod.fst).Nodup := (List.nodup_cons.1 hnd2).2
    rw [updateLoop_cons]
    rcases List.mem_cons.1 hk with heq | hmem
    · cases heq
      rw [stepEntry_done_false store errs k f hd]
      have hkrest : k ∉ rest.map Prod.fst := (List.nodup_cons.1 hnd2).1
      obtain ⟨h1, h2, h3, h4, h5⟩ :=
        updateLoop_frame store rest k hkrest errs dels plog rlog
      exact ⟨h1, h4⟩
    · have hkmem : k ∈ rest.map Prod.fst := List.mem_map.2 ⟨(k, f), hmem, rfl⟩
      have hk0k : k0 ≠ k := by
        intro h
        exact (List.nodup_cons.1 hnd2).1 (h ▸ hkmem)
      rcases stepEntry_cases store errs k0 f0 with ⟨e, hd0, hstep⟩ |
        ⟨hd0, hstep⟩ | ⟨hd0, e2, p, r, hstep, hlook, hfilt, hp, hr⟩
      · rw [hstep]; exact ⟨rfl, Iff.rfl⟩
      · rw [hstep]; exact ih k f hnd' hmem hd errs dels plog rlog
      · rw [hstep]
        obtain ⟨ih1, ih2⟩ :=
          ih k f hnd' hmem hd e2 (dels ++ [k0]) (plog ++ p) (rlog ++ r)
        refine ⟨ih1.trans (hlook k (Ne.symm hk0k)), ?_⟩
        rw [ih2]
        simp [Ne.symm hk0k]

/-- `update` on an entry that is not yet finished: the entry stays in the
queue under the same key, mapped to the same future, and its error entry
is unchanged — whether or not some other entry's `done()` raises. -/
theorem update_unfinished (store : ResultData → Except PyExc Bool)
    (st : NannyState) (k : Nat) (f : Future)
    (hnd : (st.queue.map Prod.fst).Nodup) (hk : (k, f) ∈ st.queue)
    (hd : f.done = Except.ok false) :
    (k, f) ∈ (update store st).state.queue ∧
    lookupKey (update store st).state.errors k = lookupKey st.errors k := by
  obtain ⟨h1, h2⟩ :=
    updateLoop_unfinished_frame store st.queue k f hnd hk hd st.errors [] []
      []
  rcases hexc : (updateLoop store st.queue st.errors [] [] []).exc with _ | e
  · have hupd := finishUpdate_none st _ hexc
    constructor
    · rw [update_def, hupd]
      refine List.mem_filter.2 ⟨hk, ?_⟩
      have hnotdel :
          k ∉ (updateLoop store st.queue st.errors [] [] []).delKeys := by
        intro hmem
        exact absurd (h2.1 hmem) (List.not_mem_nil k)
      simp [hnotdel]
    · rw [update_def, hupd]; exact h1
  · have hupd := finishUpdate_some st _ e hexc
    constructor
    · rw [update_def, hupd]; exact hk
    · rw [update_def, hupd]; exact h1

/-- If a `done()` call raises for some tracked entry, the loop output is
the prefix's accumulators with the exception attached. -/
theorem updateLoop_raise (store : ResultData → Except PyExc Bool)
    (q1 : List (Nat × Future)) (k : Nat) (f : Future) (e : PyExc)
    (q2 : List (Nat × Future)) (hq1 : ∀ p ∈ q1, doneOk p.2 = true)
    (hd : f.done = Except.error e) (errs : List (Nat × String))
    (dels : List Nat) (plog : List (Nat × ResultData)) (rlog : List Nat) :
    updateLoop store (q1 ++ (k, f) :: q2) errs dels plog rlog =
      ⟨(updateLoop store q1 errs dels plog rlog).errs,
        (updateLoop store q1 errs dels plog rlog).delKeys,
        (updateLoop store q1 errs dels plog rlog).pageLog,
        (updateLoop store q1 errs dels plog rlog).resLog, some e⟩ := by
  rw [updateLoop_append store q1 ((k, f) :: q2) errs dels plog rlog
    (updateLoop_exc_none store q1 hq1 errs dels plog rlog)]
  rw [updateLoop_cons, stepEntry_done_error store _ k f e hd]

end DaskNanny

namespace DaskScheduler

/-! ### postLoop lemmas -/

theorem postLoop_nil (submit : String → Except PyExc Future)
    (errs : List String) (ids : List Nat) (st : NannyState) :
    postLoop submit [] errs ids st = ⟨errs, ids, st, none⟩ :=
  rfl

theorem postLoop_marker (submit : String → Except PyExc Future) (m : String)
    (rest : List TaskItem) (errs : List String) (ids : List Nat)
    (st : NannyState) :
    postLoop submit (TaskItem.errorMarker m :: rest) errs ids st =
      postLoop submit rest (errs ++ [m]) ids st :=
  rfl

theorem postLoop_spec_ok (submit : String → Except PyExc Future) (p : String)
    (f : Future) (hsub : submit p = Except.ok f) (rest : List TaskItem)
    (errs : List String) (ids : List Nat) (st : NannyState) :
    postLoop submit (TaskItem.spec p :: rest) errs ids st =
      postLoop submit rest errs (ids ++ [st.counter])
        ⟨st.queue ++ [(st.counter, f)], st.errors, st.counter + 1⟩ := by
  simp [postLoop, hsub, DaskNanny.add_future]

theorem postLoop_spec_error (submit : String → Except PyExc Future)
    (p : String) (e : PyExc) (hsub : submit p = Except.error e)
    (rest : List TaskItem) (errs : List String) (ids : List Nat)
    (st : NannyState) :
    postLoop submit (TaskItem.spec p :: rest) errs ids st =
      ⟨errs, ids, st, some e⟩ := by
  simp [postLoop, hsub]

/-- When every well-formed item's backend submission succeeds, the
submission loop processes the batch in order: the response's error list
gains exactly the marker messages (in order), the identifier list gains
the freshly minted ids (in counter order), and exactly one new queue
entry is tracked per well-formed item; the errors map is untouched. -/
theorem postLoop_ok (submit : String → Except PyExc Future) :
    ∀ (tasks : List TaskItem),
    (∀ p, TaskItem.spec p ∈ tasks → ∃ f, submit p = Except.ok f) →
    ∀ (errs : List String) (ids : List Nat) (st : NannyState),
      (postLoop submit tasks errs ids st).exc = none ∧
      (postLoop submit tasks errs ids st).errList =
        errs ++ tasks.filterMap TaskItem.markerMsg ∧
      (postLoop submit tasks errs ids st).nannyIds =
        ids ++ List.range' st.counter
          (tasks.countP (fun t => t.isSpec)) ∧
      (postLoop submit tasks errs ids st).state.counter =
        st.counter + tasks.countP (fun t => t.isSpec) ∧
      (postLoop submit tasks errs ids st).state.errors = st.errors ∧
      (∃ extra : List (Nat × Future),
        (postLoop submit tasks errs ids st).state.queue =
          st.queue ++ extra ∧
        extra.length = tasks.countP (fun t => t.isSpec)) := by
  intro tasks
  induction tasks with
  | nil =>
    intro _ errs ids st
    refine ⟨rfl, by simp [postLoop_nil], by simp [postLoop_nil],
      by simp [postLoop_nil], rfl, [], by simp [postLoop_nil], by simp⟩
  | cons item rest ih =>
    intro hsub errs ids st
    have hrest : ∀ p, TaskItem.spec p ∈ rest → ∃ f, submit p = Except.ok f :=
      fun p hp => hsub p (List.mem_cons_of_mem _ hp)
    rcases item with p | m
    · obtain ⟨f, hf⟩ := hsub p (List.mem_cons_self _ _)
      obtain ⟨ih1, ih2, ih3, ih4, ih5, extra, ih6, ih7⟩ :=
        ih hrest errs (ids ++ [st.counter])
          ⟨st.queue ++ [(st.counter, f)], st.errors, st.counter + 1⟩
      rw [postLoop_spec_ok submit p f hf rest errs ids st]
      have hcount : (TaskItem.spec p :: rest).countP (fun t => t.isSpec) =
          rest.countP (fun t => t.isSpec) + 1 :=
        List.countP_cons_of_pos _ _ (by simp [TaskItem.isSpec])
      refine ⟨ih1, ?_, ?_, ?_, ih5, (st.counter, f) :: extra, ?_, ?_⟩
      · rw [ih2]
        simp [List.filterMap_cons, TaskItem.markerMsg]
      · rw [ih3, hcount, List.range'_succ]
        simp
      · rw [ih4, hcount]
        show st.counter + 1 + rest.countP (fun t => t.isSpec) =
          st.counter + (rest.countP (fun t => t.isSpec) + 1)
        omega
      · rw [ih6]
        simp
      · simp [ih7, hcount]
    · obtain ⟨ih1, ih2, ih3, ih4, ih5, extra, ih6, ih7⟩ :=
        ih hrest (errs ++ [m]) ids st
      rw [postLoop_marker]
      have hcount :
          (TaskItem.errorMarker m :: rest).countP (fun t => t.isSpec) =
            rest.countP (fun t => t.isSpec) :=
        List.countP_cons_of_neg _ _ (by simp [TaskItem.isSpec])
      refine ⟨ih1, ?_, by rw [ih3, hcount], by rw [ih4, hcount], ih5,
        extra, ih6, by rw [ih7, hcount]⟩
      · rw [ih2]
        simp [List.filterMap_cons, TaskItem.markerMsg]

/-- If the loop over a prefix of the batch raises no exception, the loop
over the whole batch continues from the prefix's accumulators. -/
theorem postLoop_append (submit : String → Except PyExc Future) :
    ∀ (t1 t2 : List TaskItem) (errs : List String) (ids : List Nat)
      (st : NannyState),
      (postLoop submit t1 errs ids st).exc = none →
      postLoop submit (t1 ++ t2) errs ids st =
        postLoop submit t2 (postLoop submit t1 errs ids st).errList
          (postLoop submit t1 errs ids st).nannyIds
          (postLoop submit t1 errs ids st).state := by
  intro t1
  induction t1 with
  | nil => intro t2 errs ids st _; rfl
  | cons item rest ih =>
    intro t2 errs ids st hexc
    rcases item with p | m
    · rcases hsub : submit p with e | f
      · rw [postLoop_spec_error submit p e hsub rest errs ids st] at hexc
        exact Option.noConfusion hexc
      · rw [postLoop_spec_ok submit p f hsub rest errs ids st] at hexc
        rw [List.cons_append,
          postLoop_spec_ok submit p f hsub (rest ++ t2) errs ids st,
          postLoop_spec_ok submit p f hsub rest errs ids st]
        exact ih t2 errs (ids ++ [st.counter])
          ⟨st.queue ++ [(st.counter, f)], st.errors, st.counter + 1⟩ hexc
    · rw [postLoop_marker submit m rest errs ids st] at hexc
      rw [List.cons_append,
        postLoop_marker submit m (rest ++ t2) errs ids st,
        postLoop_marker submit m rest errs ids st]
      exact ih t2 (errs ++ [m]) ids st hexc

end DaskScheduler

/-! ### The claims -/

open DaskNanny DaskScheduler

/-- C1: For every tracked entry whose future reports finished with a
success outcome, one `update` call performs exactly one `add_page` call
for that entry's record, removes the entry's key from the queue, and adds
no entry keyed by that key to `errors`.  (Per the Handle contract, the
`done()` checks return rather than raise, and the nominal store accepts
the call without raising; keys are unique as in a dict.) -/
theorem claim1_success_reconcile (store : ResultData → Except PyExc Bool)
    (st : NannyState) (k : Nat) (f : Future) (tmp : ResultData) (b : Bool)
    (hq : ∀ p ∈ st.queue, doneOk p.2 = true)
    (hnd : (st.queue.map Prod.fst).Nodup) (hk : (k, f) ∈ st.queue)
    (hd : f.done = Except.ok true) (hr : f.result = Except.ok tmp)
    (hs : tmp.success = true) (hst : store tmp = Except.ok b) :
    (update store st).exc = none ∧
    (update store st).pageLog.filter (fun x => x.1 = k) = [(k, tmp)] ∧
    (∀ g : Future, (k, g) ∉ (update store st).state.queue) ∧
    lookupKey (update store st).state.errors k = lookupKey st.errors k ∧
    (update store st).state.errors.filter (fun x => x.1 = k) =
      st.errors.filter (fun x => x.1 = k) := by
  have hstep : ∀ errs, stepEntry store errs k f =
      StepOut.processed ((fun errs => errs) errs) [(k, tmp)] [k] :=
    fun errs => stepEntry_store_ok store errs k f tmp b hd hr hs hst
  obtain ⟨h1, h2, h3, m, hm1, hm2, hm3, hm4⟩ :=
    update_processed_entry store st (fun errs => errs) [(k, tmp)] k f hq hnd
      hk hstep (by simp)
  exact ⟨h1, h3, h2, hm3.trans hm1, hm4.trans hm2⟩

/-- Witness for C1 at a concrete state: one tracked successful entry. -/
theorem claim1_witness :
    ((0, futSuccess) ∈ ([(0, futSuccess)] : List (Nat × Future))) ∧
    (update storeOk ⟨[(0, futSuccess)], [], 1⟩).exc = none ∧
    (update storeOk ⟨[(0, futSuccess)], [], 1⟩).pageLog.filter
      (fun x => x.1 = 0) = [(0, rdGood)] ∧
    lookupKey (update storeOk ⟨[(0, futSuccess)], [], 1⟩).state.errors 0 =
      none := by
  obtain ⟨h1, h2, h3, h4, h5⟩ :=
    claim1_success_reconcile storeOk ⟨[(0, futSuccess)], [], 1⟩ 0 futSuccess
      rdGood true (by decide) (by decide) (by decide) rfl rfl rfl rfl
  exact ⟨by decide, h1, h2, h4.trans rfl⟩

/-- C4: during one `update` pass (in which no `done()` check raises), a
failure condition in one finished entry — a failure outcome or a raising
store call — is confined to that entry: no exception escapes `update`,
and every finished entry, whatever its outcome, is removed from the
queue. -/
theorem claim4_isolation (store : ResultData → Except PyExc Bool)
    (st : NannyState) (hq : ∀ p ∈ st.queue, doneOk p.2 = true) :
    (update store st).exc = none ∧
    ∀ k f, (k, f) ∈ st.queue → f.done = Except.ok true →
      ∀ g : Future, (k, g) ∉ (update store st).state.queue := by
  have hexcAll := updateLoop_exc_none store st.queue hq st.errors [] [] []
  have hupd := (update_def store st).trans
    (finishUpdate_none st _ hexcAll)
  constructor
  · rw [hupd]
  · intro k f hk hfin g hg
    rw [hupd] at hg
    obtain ⟨hmem, hpred⟩ := List.mem_filter.1 hg
    have hdel := updateLoop_finished_mem store st.queue hq k f hk hfin
      st.errors [] [] []
    simp at hpred
    exact hpred hdel

/-- Witness for C4: a failed entry, an entry whose store call raises, and
a successful entry in the same pass; all three are removed and no
exception escapes. -/
theorem claim4_witness :
    (update storeDown
      ⟨[(0, futFailed), (1, futSuccess), (2, futResultRaises)], [],
        3⟩).exc = none ∧
    (0, futFailed) ∉ (update storeDown
      ⟨[(0, futFailed), (1, futSuccess), (2, futResultRaises)], [],
        3⟩).state.queue ∧
    (1, futSuccess) ∉ (update storeDown
      ⟨[(0, futFailed), (1, futSuccess), (2, futResultRaises)], [],
        3⟩).state.queue ∧
    (2, futResultRaises) ∉ (update storeDown
      ⟨[(0, futFailed), (1, futSuccess), (2, futResultRaises)], [],
        3⟩).state.queue := by
  obtain ⟨h1, h2⟩ := claim4_isolation storeDown
    ⟨[(0, futFailed), (1, futSuccess), (2, futResultRaises)], [], 3⟩
    (by decide)
  exact ⟨h1, h2 0 futFailed (by decide) rfl futFailed,
    h2 1 futSuccess (by decide) rfl futSuccess,
    h2 2 futResultRaises (by decide) rfl futResultRaises⟩

/-- C8: a tracked entry whose future reports not finished is untouched by
`update`: it is still in the queue mapped to the same future, and no
entry keyed by it is added to `errors` — even if another entry's `done()`
raises. -/
theorem claim8_unfinished (store : ResultData → Except PyExc Bool)
    (st : NannyState) (k : Nat) (f : Future)
    (hnd : (st.queue.map Prod.fst).Nodup) (hk : (k, f) ∈ st.queue)
    (hd : f.done = Except.ok false) :
    (k, f) ∈ (update store st).state.queue ∧
    lookupKey (update store st).state.errors k = lookupKey st.errors k :=
  update_unfinished store st k f hnd hk hd

/-- Witness for C8: a running entry next to a failed entry survives the
pass untouched. -/
theorem claim8_witness :
    (0, futRunning) ∈ (update storeOk
      ⟨[(0, futRunning), (1, futFailed)], [], 2⟩).state.queue ∧
    lookupKey (update storeOk
      ⟨[(0, futRunning), (1, futFailed)], [], 2⟩).state.errors 0 =
      none := by
  obtain ⟨h1, h2⟩ := claim8_unfinished storeOk
    ⟨[(0, futRunning), (1, futFailed)], [], 2⟩ 0 futRunning (by decide)
    (by decide) rfl
  exact ⟨h1, h2.trans rfl⟩

/-- C2 is false as stated: for a failed outcome with diagnostic message
"solver diverged", the entry filed under `errors` is the formatted
exception text (exception class plus the `ValueError` wrapper sentence),
not exactly the message itself. -/
theorem claim2_counterexample :
    lookupKey (update storeOk
      ⟨[(0, futFailed)], [], 1⟩).state.errors 0 ≠
      some "solver diverged" ∧
    lookupKey (update storeOk
      ⟨[(0, futFailed)], [], 1⟩).state.errors 0 =
      some ("ValueError:Computation (def456, MP2/cc-pVDZ) did not " ++
        "complete successfully!:\nsolver diverged\n") := by
  exact ⟨by decide, by decide⟩

/-- C2 (amended): a tracked entry whose future reports finished with a
failure outcome carrying diagnostic `tmp.error` is removed from the
queue, exactly one entry keyed by it is added to `errors`, and a
subsequent poll shows the key absent from the queue list and present in
the errors map — with the formatted diagnostic
`excText (failureExc tmp)`, which contains `tmp.error` as a substring
rather than being exactly it. -/
theorem claim2_amended (store : ResultData → Except PyExc Bool)
    (st : NannyState) (k : Nat) (f : Future) (tmp : ResultData)
    (hq : ∀ p ∈ st.queue, doneOk p.2 = true)
    (hnd : (st.queue.map Prod.fst).Nodup) (hk : (k, f) ∈ st.queue)
    (hd : f.done = Except.ok true) (hr : f.result = Except.ok tmp)
    (hs : tmp.success = false) (he : lookupKey st.errors k = none) :
    (update store st).exc = none ∧
    (∀ g : Future, (k, g) ∉ (update store st).state.queue) ∧
    k ∉ (getPoll (update store st).state).1 ∧
    lookupKey (getPoll (update store st).state).2 k =
      some (excText (failureExc tmp)) ∧
    ((update store st).state.errors.filter (fun x => x.1 = k)).length =
      1 ∧
    (∃ pre suf, excText (failureExc tmp) = pre ++ tmp.error ++ suf) := by
  have hstep : ∀ errs, stepEntry store errs k f =
      StepOut.processed
        ((fun errs => setKey errs k (excText (failureExc tmp))) errs) []
        [k] :=
    fun errs => stepEntry_result_failure store errs k f tmp hd hr hs
  obtain ⟨h1, h2, h3, m, hm1, hm2, hm3, hm4⟩ :=
    update_processed_entry store st
      (fun errs => setKey errs k (excText (failureExc tmp))) [] k f hq hnd
      hk hstep (by simp)
  refine ⟨h1, h2, ?_, ?_, ?_, ?_⟩
  · intro hmem
    obtain ⟨p, hp, hpk⟩ := List.mem_map.1 hmem
    exact h2 p.2 (by rw [← hpk]; exact hp)
  · show lookupKey (update store st).state.errors k = _
    rw [hm3]
    exact lookupKey_setKey_self m k _
  · rw [hm4, setKey_filter_self m k _ (hm1.trans he)]
    rfl
  · refine ⟨"ValueError:" ++ ("Computation (" ++ tmp.molecule_hash ++
      ", " ++ tmp.modelchem ++ ") did not complete successfully!:\n"),
      "\n", ?_⟩
    simp [excText, failureExc, String.append_assoc]

/-- Witness for the amended C2 at a concrete state: one tracked failed
entry with diagnostic "solver diverged". -/
theorem claim2_witness :
    (update storeOk ⟨[(0, futFailed)], [], 1⟩).exc = none ∧
    0 ∉ (getPoll (update storeOk
      ⟨[(0, futFailed)], [], 1⟩).state).1 ∧
    lookupKey (getPoll (update storeOk
      ⟨[(0, futFailed)], [], 1⟩).state).2 0 =
      some (excText (failureExc rdDiverged)) ∧
    ((update storeOk
      ⟨[(0, futFailed)], [], 1⟩).state.errors.filter
        (fun x => x.1 = 0)).length = 1 := by
  obtain ⟨h1, h2, h3, h4, h5, h6⟩ :=
    claim2_amended storeOk ⟨[(0, futFailed)], [], 1⟩ 0 futFailed
      rdDiverged (by decide) (by decide) (by decide) rfl rfl rfl rfl
  exact ⟨h1, h3, h4, h5⟩

/-- C3 is false as stated: when the store rejects the record by returning
`False` from `add_page` (without raising), `update` files nothing under
`errors` — the returned value is only logged — and the entry is removed
from the queue anyway. -/
theorem claim3_counterexample :
    (update storeReject ⟨[(0, futSuccess)], [], 1⟩).state.errors = [] ∧
    (update storeReject ⟨[(0, futSuccess)], [], 1⟩).state.queue = [] ∧
    (update storeReject ⟨[(0, futSuccess)], [], 1⟩).exc = none := by
  exact ⟨by decide, by decide, by decide⟩

/-- C3 (amended): a defect in forwarding a success record that manifests
as a raised exception — the store is unreachable or rejects by raising,
or the record is malformed so `add_page` raises — is caught, converted to
the formatted diagnostic, and filed under `errors` keyed by the entry;
the `add_page` call is still made exactly once and the entry is removed.
A rejection signalled only by a `False` return value is not filed. -/
theorem claim3_amended (store : ResultData → Except PyExc Bool)
    (st : NannyState) (k : Nat) (f : Future) (tmp : ResultData) (e : PyExc)
    (hq : ∀ p ∈ st.queue, doneOk p.2 = true)
    (hnd : (st.queue.map Prod.fst).Nodup) (hk : (k, f) ∈ st.queue)
    (hd : f.done = Except.ok true) (hr : f.result = Except.ok tmp)
    (hs : tmp.success = true) (hst : store tmp = Except.error e)
    (he : lookupKey st.errors k = none) :
    (update store st).exc = none ∧
    (update store st).pageLog.filter (fun x => x.1 = k) = [(k, tmp)] ∧
    (∀ g : Future, (k, g) ∉ (update store st).state.queue) ∧
    lookupKey (update store st).state.errors k = some (excText e) ∧
    ((update store st).state.errors.filter (fun x => x.1 = k)).length =
      1 := by
  have hstep : ∀ errs, stepEntry store errs k f =
      StepOut.processed ((fun errs => setKey errs k (excText e)) errs)
        [(k, tmp)] [k] :=
    fun errs => stepEntry_store_error store errs k f tmp e hd hr hs hst
  obtain ⟨h1, h2, h3, m, hm1, hm2, hm3, hm4⟩ :=
    update_processed_entry store st
      (fun errs => setKey errs k (excText e)) [(k, tmp)] k f hq hnd hk
      hstep (by simp)
  refine ⟨h1, h3, h2, ?_, ?_⟩
  · rw [hm3]
    exact lookupKey_setKey_self m k _
  · rw [hm4, setKey_filter_self m k _ (hm1.trans he)]
    rfl

/-- Witness for the amended C3 at a concrete state: the store raises on a
successful record. -/
theorem claim3_witness :
    (update storeDown ⟨[(0, futSuccess)], [], 1⟩).exc = none ∧
    (update storeDown ⟨[(0, futSuccess)], [], 1⟩).pageLog.filter
      (fun x => x.1 = 0) = [(0, rdGood)] ∧
    lookupKey (update storeDown
      ⟨[(0, futSuccess)], [], 1⟩).state.errors 0 =
      some (excText ⟨"ConnectionError", "mongo unreachable"⟩) := by
  obtain ⟨h1, h2, h3, h4, h5⟩ :=
    claim3_amended storeDown ⟨[(0, futSuccess)], [], 1⟩ 0 futSuccess
      rdGood ⟨"ConnectionError", "mongo unreachable"⟩ (by decide)
      (by decide) (by decide) rfl rfl rfl rfl rfl
  exact ⟨h1, h2, h4⟩

/-- C5: `update` is idempotent per entry: within one pass each tracked
key's `result()` is retrieved at most once (the retrieval log has no
duplicates), and a second `update` with no intervening `add_future` and
no change to any future removes nothing, retrieves nothing, calls the
store on nothing, and reports nothing new.  (As in C1, no `done()` check
raises and keys are unique.) -/
theorem claim5_idempotent (store : ResultData → Except PyExc Bool)
    (st : NannyState) (hq : ∀ p ∈ st.queue, doneOk p.2 = true)
    (hnd : (st.queue.map Prod.fst).Nodup) :
    (update store st).resLog.Nodup ∧
    update store (update store st).state =
      ⟨(update store st).state, [], [], none⟩ := by
  have hexcAll := updateLoop_exc_none store st.queue hq st.errors [] [] []
  have hupd := (update_def store st).trans (finishUpdate_none st _ hexcAll)
  constructor
  · rw [hupd]
    have hsub := updateLoop_resLog_sublist store st.queue st.errors [] [] []
    rw [List.nil_append] at hsub
    exact List.Nodup.sublist hsub hnd
  · have hunf : ∀ p ∈ (update store st).state.queue,
        p.2.done = Except.ok false := by
      intro p hp
      rw [hupd] at hp
      obtain ⟨hmem, hpred⟩ := List.mem_filter.1 hp
      have hdo : doneOk p.2 = true := hq p hmem
      rcases hdone : p.2.done with e | bb
      · simp [doneOk, hdone] at hdo
      · rcases bb with _ | _
        · rfl
        · exfalso
          have hdel := updateLoop_finished_mem store st.queue hq p.1 p.2
            hmem hdone st.errors [] [] []
          simp at hpred
          exact hpred hdel
    have hloop1 := updateLoop_all_unfinished store
      (update store st).state.queue hunf
      (update store st).state.errors [] [] []
    have hsecond : update store (update store st).state =
        ⟨⟨(update store st).state.queue.filter
            (fun p => !(List.contains [] p.1)),
          (update store st).state.errors,
          (update store st).state.counter⟩, [], [], none⟩ := by
      rw [update_def, hloop1]
      rfl
    rw [hsecond]
    have hfilt : (update store st).state.queue.filter
        (fun p => !(List.contains [] p.1)) =
        (update store st).state.queue := List.filter_true _
    rw [hfilt]

/-- Witness for C5 at a concrete state: a finished failed entry, a
finished successful entry and a running entry; the second pass is a
no-op. -/
theorem claim5_witness :
    (update storeOk
      ⟨[(0, futFailed), (1, futSuccess), (2, futRunning)], [],
        3⟩).resLog.Nodup ∧
    update storeOk (update storeOk
      ⟨[(0, futFailed), (1, futSuccess), (2, futRunning)], [],
        3⟩).state =
      ⟨(update storeOk
        ⟨[(0, futFailed), (1, futSuccess), (2, futRunning)], [],
          3⟩).state, [], [], none⟩ :=
  claim5_idempotent storeOk
    ⟨[(0, futFailed), (1, futSuccess), (2, futRunning)], [], 3⟩
    (by decide) (by decide)

/-- C6: for every unpacked item sequence mixing backend-ready tasks and
ErrorMarkers (and every submit function that accepts each well-formed
task), the submission loop processes items in order: each marker's
message is appended to the response's error list with no queue mutation
for it, and each task is submitted, tracked under a fresh id, and its id
appended to the response's identifier list — so the identifier list has
one id per task, the error list one message per marker, and the queue
exactly one new entry per task. -/
theorem claim6_post_order (submit : String → Except PyExc Future)
    (tasks : List TaskItem) (st : NannyState)
    (hsub : ∀ p, TaskItem.spec p ∈ tasks → ∃ f, submit p = Except.ok f) :
    (post submit tasks st).exc = none ∧
    (post submit tasks st).errList = tasks.filterMap TaskItem.markerMsg ∧
    (post submit tasks st).nannyIds =
      List.range' st.counter (tasks.countP (fun t => t.isSpec)) ∧
    (post submit tasks st).state.errors = st.errors ∧
    (∃ extra : List (Nat × Future),
      (post submit tasks st).state.queue = st.queue ++ extra ∧
      extra.length = tasks.countP (fun t => t.isSpec)) := by
  obtain ⟨h1, h2, h3, h4, h5, h6⟩ := postLoop_ok submit tasks hsub [] [] st
  exact ⟨h1, by simpa using h2, by simpa using h3, h5, h6⟩

/-- Witness for C6: a batch of 3 items with item 2 malformed yields 2
identifiers, 1 error and exactly 2 newly tracked entries. -/
theorem claim6_witness :
    (post submitOk [TaskItem.spec "t1",
      TaskItem.errorMarker "unknown reference: bad-ref",
      TaskItem.spec "t3"] ⟨[], [], 0⟩).exc = none ∧
    (post submitOk [TaskItem.spec "t1",
      TaskItem.errorMarker "unknown reference: bad-ref",
      TaskItem.spec "t3"] ⟨[], [], 0⟩).errList =
      ["unknown reference: bad-ref"] ∧
    (post submitOk [TaskItem.spec "t1",
      TaskItem.errorMarker "unknown reference: bad-ref",
      TaskItem.spec "t3"] ⟨[], [], 0⟩).nannyIds = [0, 1] ∧
    (post submitOk [TaskItem.spec "t1",
      TaskItem.errorMarker "unknown reference: bad-ref",
      TaskItem.spec "t3"] ⟨[], [], 0⟩).state.queue.length = 2 := by
  obtain ⟨h1, h2, h3, h4, extra, h6, h7⟩ :=
    claim6_post_order submitOk [TaskItem.spec "t1",
      TaskItem.errorMarker "unknown reference: bad-ref",
      TaskItem.spec "t3"] ⟨[], [], 0⟩
      (fun p hp => ⟨futRunning, rfl⟩)
  refine ⟨h1, h2.trans rfl, h3.trans rfl, ?_⟩
  rw [h6]
  simpa using h7

/-- C7 is false as stated: when the backend `submit` call itself raises
for a well-formed task, the failure is not reported in the response's
per-item error list — the exception escapes `post` and terminates the
whole request, with only the items before the failing one tracked. -/
theorem claim7_counterexample :
    (post submitFailsB [TaskItem.spec "a", TaskItem.spec "b",
      TaskItem.spec "c"] ⟨[], [], 0⟩).errList = [] ∧
    (post submitFailsB [TaskItem.spec "a", TaskItem.spec "b",
      TaskItem.spec "c"] ⟨[], [], 0⟩).exc =
      some ⟨"CommClosedError", "scheduler gone"⟩ ∧
    (post submitFailsB [TaskItem.spec "a", TaskItem.spec "b",
      TaskItem.spec "c"] ⟨[], [], 0⟩).nannyIds = [0] := by
  exact ⟨by decide, by decide, by decide⟩

/-- C7 (amended): if the backend `submit` call raises for a well-formed
task, the exception escapes `post` and terminates the request: the
failing item contributes no entry to the per-item error list and is not
tracked, items before it keep their effects (their marker messages, their
ids, their tracked entries), and items after it are not processed. -/
theorem claim7_amended (submit : String → Except PyExc Future)
    (pre : List TaskItem) (p : String) (rest : List TaskItem) (e : PyExc)
    (st : NannyState)
    (hpre : ∀ q, TaskItem.spec q ∈ pre → ∃ f, submit q = Except.ok f)
    (hsub : submit p = Except.error e) :
    (post submit (pre ++ TaskItem.spec p :: rest) st).exc = some e ∧
    (post submit (pre ++ TaskItem.spec p :: rest) st).errList =
      pre.filterMap TaskItem.markerMsg ∧
    (post submit (pre ++ TaskItem.spec p :: rest) st).nannyIds =
      List.range' st.counter (pre.countP (fun t => t.isSpec)) ∧
    (∃ extra : List (Nat × Future),
      (post submit (pre ++ TaskItem.spec p :: rest) st).state.queue =
        st.queue ++ extra ∧
      extra.length = pre.countP (fun t => t.isSpec)) := by
  obtain ⟨h1, h2, h3, h4, h5, extra, h6, h7⟩ :=
    postLoop_ok submit pre hpre [] [] st
  have happ := postLoop_append submit pre (TaskItem.spec p :: rest) [] []
    st h1
  have herr := postLoop_spec_error submit p e hsub rest
    (postLoop submit pre [] [] st).errList
    (postLoop submit pre [] [] st).nannyIds
    (postLoop submit pre [] [] st).state
  have hpost : post submit (pre ++ TaskItem.spec p :: rest) st =
      ⟨(postLoop submit pre [] [] st).errList,
        (postLoop submit pre [] [] st).nannyIds,
        (postLoop submit pre [] [] st).state, some e⟩ := by
    show postLoop submit (pre ++ TaskItem.spec p :: rest) [] [] st = _
    rw [happ, herr]
  rw [hpost]
  exact ⟨rfl, by simpa using h2, by simpa using h3, extra, h6, h7⟩

/-- Witness for the amended C7: a marker followed by a task whose
submission raises; the response-so-far has the marker's message, no entry
for the failing task, and the exception escapes. -/
theorem claim7_witness :
    (post submitFailsB [TaskItem.errorMarker "malformed item",
      TaskItem.spec "b"] ⟨[], [], 0⟩).exc =
      some ⟨"CommClosedError", "scheduler gone"⟩ ∧
    (post submitFailsB [TaskItem.errorMarker "malformed item",
      TaskItem.spec "b"] ⟨[], [], 0⟩).errList = ["malformed item"] ∧
    (post submitFailsB [TaskItem.errorMarker "malformed item",
      TaskItem.spec "b"] ⟨[], [], 0⟩).nannyIds = [] := by
  obtain ⟨h1, h2, h3, h4⟩ :=
    claim7_amended submitFailsB [TaskItem.errorMarker "malformed item"]
      "b" [] ⟨"CommClosedError", "scheduler gone"⟩ ⟨[], [], 0⟩
      (fun q hq => absurd hq (by simp)) rfl
  exact ⟨h1, h2.trans rfl, h3.trans rfl⟩

/-- C10: if the finished-check `done()` raises for some tracked entry,
the exception propagates out of `update` and no entry at all is removed
from the queue — including entries earlier in the iteration that were
fully processed (their `result()` retrievals and their error-map
mutations persist), so they stay tracked and will be re-processed
later. -/
theorem claim10_done_raises (store : ResultData → Except PyExc Bool)
    (st : NannyState) (q1 : List (Nat × Future)) (k : Nat) (f : Future)
    (e : PyExc) (q2 : List (Nat × Future))
    (hsplit : st.queue = q1 ++ (k, f) :: q2)
    (hq1 : ∀ p ∈ q1, doneOk p.2 = true) (hd : f.done = Except.error e) :
    (update store st).exc = some e ∧
    (update store st).state.queue = st.queue ∧
    (update store st).state.errors =
      (updateLoop store q1 st.errors [] [] []).errs ∧
    (update store st).resLog =
      (updateLoop store q1 st.errors [] [] []).resLog ∧
    (update store st).pageLog =
      (updateLoop store q1 st.errors [] [] []).pageLog := by
  have hL : updateLoop store st.queue st.errors [] [] [] =
      ⟨(updateLoop store q1 st.errors [] [] []).errs,
        (updateLoop store q1 st.errors [] [] []).delKeys,
        (updateLoop store q1 st.errors [] [] []).pageLog,
        (updateLoop store q1 st.errors [] [] []).resLog, some e⟩ := by
    rw [hsplit]
    exact updateLoop_raise store q1 k f e q2 hq1 hd st.errors [] [] []
  have hupd : update store st =
      ⟨⟨st.queue, (updateLoop store q1 st.errors [] [] []).errs,
          st.counter⟩,
        (updateLoop store q1 st.errors [] [] []).pageLog,
        (updateLoop store q1 st.errors [] [] []).resLog, some e⟩ := by
    rw [update_def, hL]
    rfl
  rw [hupd]
  exact ⟨rfl, rfl, rfl, rfl, rfl⟩

/-- Witness for C10 at a concrete state: a failed entry is processed (its
diagnostic recorded, its outcome consumed), then `done()` raises on the
next entry; everything stays tracked, the first entry's diagnostic is in
`errors`, and the exception escapes. -/
theorem claim10_witness :
    (update storeOk ⟨[(0, futFailed), (1, futDoneRaises),
      (2, futSuccess)], [], 3⟩).exc =
      some ⟨"CommClosedError", "scheduler gone"⟩ ∧
    (update storeOk ⟨[(0, futFailed), (1, futDoneRaises),
      (2, futSuccess)], [], 3⟩).state.queue =
      [(0, futFailed), (1, futDoneRaises), (2, futSuccess)] ∧
    (update storeOk ⟨[(0, futFailed), (1, futDoneRaises),
      (2, futSuccess)], [], 3⟩).state.errors =
      [(0, excText (failureExc rdDiverged))] ∧
    (update storeOk ⟨[(0, futFailed), (1, futDoneRaises),
      (2, futSuccess)], [], 3⟩).resLog = [0] := by
  obtain ⟨h1, h2, h3, h4, h5⟩ :=
    claim10_done_raises storeOk ⟨[(0, futFailed), (1, futDoneRaises),
      (2, futSuccess)], [], 3⟩ [(0, futFailed)] 1 futDoneRaises
      ⟨"CommClosedError", "scheduler gone"⟩ [(2, futSuccess)] rfl
      (by decide) rfl
  exact ⟨h1, h2, h3.trans (by decide), h4.trans (by decide)⟩

/-- C9: for every sequence of `add_future` calls, the returned ids are
the consecutive counter values — pairwise distinct — and each call
appends its future to the queue under the freshly minted id; `add_future`
is a total function, so tracking never fails. -/
theorem claim9_track_distinct :
    ∀ (futs : List Future) (st : NannyState),
      (trackAll st futs).1 = List.range' st.counter futs.length ∧
      (trackAll st futs).1.Nodup ∧
      (trackAll st futs).2.queue =
        st.queue ++ List.zip (List.range' st.counter futs.length) futs := by
  intro futs
  induction futs with
  | nil => intro st; exact ⟨rfl, List.nodup_nil, by simp [trackAll]⟩
  | cons f fs ih =>
    intro st
    obtain ⟨ih1, ih2, ih3⟩ :=
      ih ⟨st.queue ++ [(st.counter, f)], st.errors, st.counter + 1⟩
    have h1 : (trackAll st (f :: fs)).1 =
        List.range' st.counter (f :: fs).length := by
      show st.counter :: (trackAll ⟨st.queue ++ [(st.counter, f)],
        st.errors, st.counter + 1⟩ fs).1 = _
      rw [ih1, List.length_cons, List.range'_succ]
    refine ⟨h1, ?_, ?_⟩
    · rw [h1]
      exact List.nodup_range' _ _
    · show (trackAll ⟨st.queue ++ [(st.counter, f)], st.errors,
        st.counter + 1⟩ fs).2.queue = _
      rw [ih3, List.length_cons, List.range'_succ, List.zip_cons_cons]
      show (st.queue ++ [(st.counter, f)]) ++
        List.zip (List.range' (st.counter + 1) fs.length) fs = _
      rw [List.append_assoc, List.singleton_append]

end DQM
